import Mathlib

/-!
Shallow embedding of `src/components/style/properties/common_types.rs`
(the specified-to-computed CSS value pipeline of the servo style system),
together with theorems settling the frozen claims about it.

Modelling conventions:
* Rust `f64` (`CSSFloat`) is modelled as `ℚ`.  Every numeric literal the
  claims exercise (60, 96, 2.54, 0.5, …) is exactly representable, and the
  spec describes the unit ratios as exact, so the rational model is faithful
  on the inputs under consideration.
* Angle values produced by the code are always of the form `a + b·π` with
  `a b : ℚ`; they are represented exactly by the pair `(a, b)` (`PiLin`).
  Since `π` is irrational, equality of two such pairs coincides with
  equality of the real numbers they denote.
* Rust `as i32` float-to-integer casts truncate toward zero; this is
  `f64_as_i32`.  (i32 overflow is outside the range any claim exercises and
  is not modelled.)
* `Result<T, ()>` is `Except Unit T`.  The gradient parser additionally can
  hit a fatal programming-error signal (a pushback-discipline violation),
  so its functions live in `Except PErr` with `PErr.fail` the ordinary
  parse rejection and `PErr.fatal` the fatal signal.
* The external color parser (`cssparser::Color::parse`) is an external
  collaborator; the gradient machinery is parameterised by it
  (`cp : ComponentValue → Except Unit C` for an arbitrary color type `C`).
-/

/-- Rust `f64`, modelled as `ℚ` (see the header comment). -/
abbrev CSSFloat : Type := ℚ

/-- Rust `as i32` conversion from `f64`: truncation toward zero. -/
def f64_as_i32 (q : CSSFloat) : Int := if 0 ≤ q then ⌊q⌋ else ⌈q⌉

/-- Modelled from the spec: `Au` (`servo_util::geometry::Au`, re-exported by
the source file but itself not under `src/`): "integer length unit used for
all resolved lengths; 60 units = 1 pixel". -/
structure Au where
  val : Int
deriving DecidableEq, Repr

instance : Add Au := ⟨fun a b => ⟨a.val + b.val⟩⟩

theorem Au.add_val (a b : Au) : (a + b).val = a.val + b.val := rfl

/-- Modelled from the spec: `Au::scale_by` — "scaled by" a float factor
"uses the same truncating-cast convention as the Unit Parser". -/
def Au.scale_by (a : Au) (factor : CSSFloat) : Au :=
  ⟨f64_as_i32 ((a.val : ℚ) * factor)⟩

/-- Exact representation of an `f64` value of the form `q + p·π`.
All angle values this subsystem manipulates have this form. -/
structure PiLin where
  q : ℚ
  p : ℚ
deriving DecidableEq, Repr

/-- Multiplication of a `q + p·π` value by a rational scalar. -/
def PiLin.scale (c : ℚ) (x : PiLin) : PiLin := ⟨c * x.q, c * x.p⟩

/-- `std::f64::consts::PI`, represented exactly. -/
def PI : PiLin := ⟨0, 1⟩

/-- `str::to_ascii_lower` (tokens in this grammar are ASCII; defined over
the character list so that concrete instances reduce). -/
def to_ascii_lower (s : String) : String := ⟨s.data.map Char.toLower⟩

/-- `str::eq_ignore_ascii_case`. -/
def eq_ignore_ascii_case (a b : String) : Bool :=
  to_ascii_lower a == to_ascii_lower b

/-- The component-value token shapes consumed from the external tokenizer
(`cssparser::ast::ComponentValue`), restricted to the shapes this subsystem
inspects: Number, Dimension(value, unit), Percentage, Identifier, Comma,
whitespace, Function(name, args), URL(literal). -/
inductive ComponentValue where
  | Number (value : CSSFloat)
  | Dimension (value : CSSFloat) (unit : String)
  | Percentage (value : CSSFloat)
  | Ident (value : String)
  | Comma
  | WhiteSpace
  | URL (value : String)
  | Function (name : String) (args : List ComponentValue)

def ComponentValue.isWhiteSpace : ComponentValue → Bool
  | .WhiteSpace => true
  | _ => false

/-- Ordinary parse rejection (`Err(())`) versus a fatal programming-error
signal (a panic, e.g. the pushback-discipline violation). -/
inductive PErr where
  | fail
  | fatal
deriving DecidableEq, Repr

/-- Modelled from the spec: `parsing_utils::BufferedIter` (not under
`src/`): "a real cursor wrapped by a single optional lookahead slot". -/
structure Iter where
  buffer : Option ComponentValue
  tokens : List ComponentValue

/-- `BufferedIter::next`: yield the buffered token if present, else the
next underlying token. -/
def Iter.next : Iter → Option (ComponentValue × Iter)
  | ⟨some t, ts⟩ => some (t, ⟨none, ts⟩)
  | ⟨none, []⟩ => none
  | ⟨none, t :: ts⟩ => some (t, ⟨none, ts⟩)

/-- Modelled from the spec: `BufferedIter::push_back`; "a second
consecutive pushback without an intervening read is a usage error, not a
parse failure" — a fatal signal, not `Err(())`. -/
def Iter.push_back (it : Iter) (t : ComponentValue) : Except PErr Iter :=
  match it.buffer with
  | some _ => .error .fatal
  | none => .ok ⟨some t, it.tokens⟩

/-- `BufferedIter::new(args.skip_whitespace())`: the cursor over the
argument tokens with whitespace tokens skipped. -/
def Iter.ofTokens (args : List ComponentValue) : Iter :=
  ⟨none, args.filter (fun t => !t.isWhiteSpace)⟩

/-- Number of tokens still readable (used as the termination measure). -/
def Iter.size (it : Iter) : Nat :=
  (match it.buffer with | some _ => 1 | none => 0) + it.tokens.length

theorem Iter.next_size {it it' : Iter} {t : ComponentValue}
    (h : it.next = some (t, it')) : it'.size + 1 = it.size := by
  rcases it with ⟨b, ts⟩
  cases b with
  | some u => cases h; simp [Iter.size, Nat.add_comm]
  | none =>
    cases ts with
    | nil => cases h
    | cons u us => cases h; simp [Iter.size, Nat.add_comm]

theorem Iter.push_back_size {it it' : Iter} {t : ComponentValue}
    (h : it.push_back t = .ok it') : it'.size = it.size + 1 := by
  rcases it with ⟨b, ts⟩
  cases b with
  | some u => cases h
  | none => cases h; simp [Iter.size, Nat.add_comm]

namespace specified

/-- `specified::CSSColor`, over an opaque color type `C` supplied by the
external color parser. -/
structure CSSColor (C : Type) where
  parsed : C
  authored : Option String
deriving DecidableEq, Repr

/-- `CSSColor::parse`: delegate to the external color parser `cp`; record
the authored text exactly when the token was a bare identifier. -/
def CSSColor.parse {C : Type} (cp : ComponentValue → Except Unit C)
    (component_value : ComponentValue) : Except Unit (CSSColor C) :=
  (cp component_value).map (fun parsed =>
    { parsed := parsed
      authored := match component_value with
        | .Ident s => some s
        | _ => none })

/-- `specified::Length`. -/
inductive Length where
  | Au (value : Au)
  | Em (value : CSSFloat)
  | Ex (value : CSSFloat)
  | Rem (value : CSSFloat)
  | ServoCharacterWidth (value : Int)
deriving DecidableEq, Repr

/-- Outcome of a `fmt::Show` formatting attempt: a textual result, a
recoverable formatting error, or a fatal programming-error signal. -/
inductive FmtOutcome where
  | ok (s : String)
  | err
  | fatal
deriving DecidableEq, Repr

/-- `impl fmt::Show for Length`: `ServoCharacterWidth` panics
("internal CSS values should never be serialized"); every other variant
writes its textual form. -/
def Length.fmt : Length → FmtOutcome
  | .Au length => .ok (toString length.val)
  | .Em length => .ok (toString length ++ "em")
  | .Ex length => .ok (toString length ++ "ex")
  | .Rem length => .ok (toString length ++ "rem")
  | .ServoCharacterWidth _ => .fatal

def AU_PER_PX : CSSFloat := 60
def AU_PER_IN : CSSFloat := AU_PER_PX * 96
def AU_PER_CM : CSSFloat := AU_PER_IN / 2.54
def AU_PER_MM : CSSFloat := AU_PER_IN / 25.4
def AU_PER_PT : CSSFloat := AU_PER_IN / 72
def AU_PER_PC : CSSFloat := AU_PER_PT * 12

/-- `Length::from_px`. -/
def Length.from_px (px_value : CSSFloat) : Length :=
  .Au ⟨f64_as_i32 (px_value * AU_PER_PX)⟩

/-- `Length::parse_dimension`. -/
def Length.parse_dimension (value : CSSFloat) (unit : String) :
    Except Unit Length :=
  match to_ascii_lower unit with
  | "px" => .ok (Length.from_px value)
  | "in" => .ok (.Au ⟨f64_as_i32 (value * AU_PER_IN)⟩)
  | "cm" => .ok (.Au ⟨f64_as_i32 (value * AU_PER_CM)⟩)
  | "mm" => .ok (.Au ⟨f64_as_i32 (value * AU_PER_MM)⟩)
  | "pt" => .ok (.Au ⟨f64_as_i32 (value * AU_PER_PT)⟩)
  | "pc" => .ok (.Au ⟨f64_as_i32 (value * AU_PER_PC)⟩)
  | "em" => .ok (.Em value)
  | "ex" => .ok (.Ex value)
  | "rem" => .ok (.Rem value)
  | _ => .error ()

/-- `Length::parse_internal`: Dimension under the sign guard, or a bare
Number equal to zero; anything else is rejected. -/
def Length.parse_internal (input : ComponentValue) (negative_ok : Bool) :
    Except Unit Length :=
  match input with
  | .Dimension value unit =>
    if negative_ok || decide (0 ≤ value) then Length.parse_dimension value unit
    else .error ()
  | .Number value => if value = 0 then .ok (.Au ⟨0⟩) else .error ()
  | _ => .error ()

def Length.parse (input : ComponentValue) : Except Unit Length :=
  Length.parse_internal input true

def Length.parse_non_negative (input : ComponentValue) : Except Unit Length :=
  Length.parse_internal input false

/-- `specified::LengthOrPercentage`. -/
inductive LengthOrPercentage where
  | Length (length : Length)
  | Percentage (value : CSSFloat)
deriving DecidableEq, Repr

/-- `LengthOrPercentage::parse_internal`. -/
def LengthOrPercentage.parse_internal (input : ComponentValue)
    (negative_ok : Bool) : Except Unit LengthOrPercentage :=
  match input with
  | .Dimension value unit =>
    if negative_ok || decide (0 ≤ value) then
      (Length.parse_dimension value unit).map LengthOrPercentage.Length
    else .error ()
  | .Percentage value =>
    if negative_ok || decide (0 ≤ value) then
      .ok (.Percentage (value / 100))
    else .error ()
  | .Number value =>
    if value = 0 then .ok (.Length (.Au ⟨0⟩)) else .error ()
  | _ => .error ()

def LengthOrPercentage.parse (input : ComponentValue) :
    Except Unit LengthOrPercentage :=
  LengthOrPercentage.parse_internal input true

def LengthOrPercentage.parse_non_negative (input : ComponentValue) :
    Except Unit LengthOrPercentage :=
  LengthOrPercentage.parse_internal input false

/-- `specified::LengthOrPercentageOrAuto`. -/
inductive LengthOrPercentageOrAuto where
  | Length (length : Length)
  | Percentage (value : CSSFloat)
  | Auto
deriving DecidableEq, Repr

/-- `LengthOrPercentageOrAuto::parse_internal`. -/
def LengthOrPercentageOrAuto.parse_internal (input : ComponentValue)
    (negative_ok : Bool) : Except Unit LengthOrPercentageOrAuto :=
  match input with
  | .Dimension value unit =>
    if negative_ok || decide (0 ≤ value) then
      (Length.parse_dimension value unit).map LengthOrPercentageOrAuto.Length
    else .error ()
  | .Percentage value =>
    if negative_ok || decide (0 ≤ value) then
      .ok (.Percentage (value / 100))
    else .error ()
  | .Number value =>
    if value = 0 then .ok (.Length (.Au ⟨0⟩)) else .error ()
  | .Ident value =>
    if eq_ignore_ascii_case value "auto" then .ok .Auto else .error ()
  | _ => .error ()

def LengthOrPercentageOrAuto.parse (input : ComponentValue) :
    Except Unit LengthOrPercentageOrAuto :=
  LengthOrPercentageOrAuto.parse_internal input true

def LengthOrPercentageOrAuto.parse_non_negative (input : ComponentValue) :
    Except Unit LengthOrPercentageOrAuto :=
  LengthOrPercentageOrAuto.parse_internal input false

/-- `specified::LengthOrPercentageOrNone`. -/
inductive LengthOrPercentageOrNone where
  | Length (length : Length)
  | Percentage (value : CSSFloat)
  | None
deriving DecidableEq, Repr

/-- `LengthOrPercentageOrNone::parse_internal`. -/
def LengthOrPercentageOrNone.parse_internal (input : ComponentValue)
    (negative_ok : Bool) : Except Unit LengthOrPercentageOrNone :=
  match input with
  | .Dimension value unit =>
    if negative_ok || decide (0 ≤ value) then
      (Length.parse_dimension value unit).map LengthOrPercentageOrNone.Length
    else .error ()
  | .Percentage value =>
    if negative_ok || decide (0 ≤ value) then
      .ok (.Percentage (value / 100))
    else .error ()
  | .Number value =>
    if value = 0 then .ok (.Length (.Au ⟨0⟩)) else .error ()
  | .Ident value =>
    if eq_ignore_ascii_case value "none" then .ok .None else .error ()
  | _ => .error ()

def LengthOrPercentageOrNone.parse (input : ComponentValue) :
    Except Unit LengthOrPercentageOrNone :=
  LengthOrPercentageOrNone.parse_internal input true

def LengthOrPercentageOrNone.parse_non_negative (input : ComponentValue) :
    Except Unit LengthOrPercentageOrNone :=
  LengthOrPercentageOrNone.parse_internal input false

/-- `specified::Angle` (radians, as an exact `q + p·π` value). -/
structure Angle where
  radians : PiLin
deriving DecidableEq, Repr

def DEG_TO_RAD : PiLin := PiLin.scale (1 / 180) PI
def GRAD_TO_RAD : PiLin := PiLin.scale (1 / 200) PI

/-- `Angle::parse_dimension` (CSS-VALUES § 6.1): deg, grad, rad, turn. -/
def Angle.parse_dimension (value : CSSFloat) (unit : String) :
    Except Unit Angle :=
  if eq_ignore_ascii_case unit "deg" then
    .ok ⟨PiLin.scale value DEG_TO_RAD⟩
  else if eq_ignore_ascii_case unit "grad" then
    .ok ⟨PiLin.scale value GRAD_TO_RAD⟩
  else if eq_ignore_ascii_case unit "rad" then
    .ok ⟨⟨value, 0⟩⟩
  else if eq_ignore_ascii_case unit "turn" then
    .ok ⟨PiLin.scale (value * 2) PI⟩
  else
    .error ()

/-- `specified::HorizontalDirection`. -/
inductive HorizontalDirection where
  | Left
  | Right
deriving DecidableEq, Repr

/-- `specified::VerticalDirection`. -/
inductive VerticalDirection where
  | Top
  | Bottom
deriving DecidableEq, Repr

/-- `specified::AngleOrCorner`. -/
inductive AngleOrCorner where
  | Angle (angle : Angle)
  | Corner (horizontal : HorizontalDirection) (vertical : VerticalDirection)
deriving DecidableEq, Repr

/-- `specified::ColorStop`. -/
structure ColorStop (C : Type) where
  color : CSSColor C
  position : Option LengthOrPercentage
deriving DecidableEq, Repr

/-- `specified::LinearGradient`. -/
structure LinearGradient (C : Type) where
  angle_or_corner : AngleOrCorner
  stops : List (ColorStop C)
deriving DecidableEq, Repr

/-- `parse_color_stop`: a required color, optionally followed by a
position; a following `Comma` is pushed back and records no position. -/
def parse_color_stop {C : Type} (cp : ComponentValue → Except Unit C)
    (source : Iter) : Except PErr (ColorStop C × Iter) :=
  match source.next with
  | none => .error .fail
  | some (colorToken, s1) =>
    match CSSColor.parse cp colorToken with
    | .error () => .error .fail
    | .ok color =>
      match s1.next with
      | none => .ok ({ color := color, position := none }, s1)
      | some (value, s2) =>
        match value with
        | .Comma =>
          match s2.push_back value with
          | .error e => .error e
          | .ok s3 => .ok ({ color := color, position := none }, s3)
        | position =>
          match LengthOrPercentage.parse position with
          | .error () => .error .fail
          | .ok p => .ok ({ color := color, position := some p }, s2)

/-- Modelled from the spec: `parsing_utils::parse_comma_separated` (not
under `src/`): "parse a comma-separated sequence" — the first item, then
repeatedly a `Comma` followed by an item, until the cursor is exhausted;
any other token between items rejects.  Each iteration reads at least two
tokens, so the loop is bounded by the cursor size (spec § 5: "all
computations are bounded and terminating over a finite token list"); the
`fuel` argument makes that bound explicit and every call site supplies
fuel larger than the cursor size, keeping the exhaustion branch
unreachable. -/
def parse_comma_separated_loop {C : Type} (cp : ComponentValue → Except Unit C) :
    Nat → List (ColorStop C) → Iter → Except PErr (List (ColorStop C))
  | 0, _, _ => .error .fatal
  | fuel + 1, acc, source =>
    match source.next with
    | none => .ok acc
    | some (t, s1) =>
      match t with
      | .Comma =>
        match parse_color_stop cp s1 with
        | .error e => .error e
        | .ok (stop, s2) => parse_comma_separated_loop cp fuel (acc ++ [stop]) s2
      | _ => .error .fail

/-- Modelled from the spec (see `parse_comma_separated_loop`). -/
def parse_comma_separated {C : Type} (cp : ComponentValue → Except Unit C)
    (source : Iter) : Except PErr (List (ColorStop C)) :=
  match parse_color_stop cp source with
  | .error e => .error e
  | .ok (first, s1) => parse_comma_separated_loop cp (s1.size + 1) [first] s1

/-- The identifier-reading loop of `LinearGradient::parse_function` after
`to`: accumulate the horizontal/vertical axes, stop at end-of-input or at a
`Comma` (pushed back); a repeated axis or any other token rejects.  Each
iteration reads one token, so the loop is bounded by the cursor size; as
above, `fuel` makes the bound explicit and is always supplied larger than
the cursor size (`parse_to_loop_spec` shows the branch is unreachable). -/
def parse_to_loop : Nat → Option HorizontalDirection →
    Option VerticalDirection → Iter →
    Except PErr (Option HorizontalDirection × Option VerticalDirection × Iter)
  | 0, _, _, _ => .error .fatal
  | fuel + 1, horizontal, vertical, source =>
    match source.next with
    | none => .ok (horizontal, vertical, source)
    | some (token, s1) =>
      match token with
      | .Ident ident =>
        if eq_ignore_ascii_case ident "top" && vertical.isNone then
          parse_to_loop fuel horizontal (some .Top) s1
        else if eq_ignore_ascii_case ident "bottom" && vertical.isNone then
          parse_to_loop fuel horizontal (some .Bottom) s1
        else if eq_ignore_ascii_case ident "left" && horizontal.isNone then
          parse_to_loop fuel (some .Left) vertical s1
        else if eq_ignore_ascii_case ident "right" && horizontal.isNone then
          parse_to_loop fuel (some .Right) vertical s1
        else
          .error .fail
      | .Comma =>
        match s1.push_back token with
        | .error e => .error e
        | .ok s2 => .ok (horizontal, vertical, s2)
      | _ => .error .fail

/-- The direction-determining phase of `LinearGradient::parse_function`
(the `match source.next()` expression bound to
`(angle_or_corner, need_to_parse_comma)`, source lines 515-590). -/
def parse_direction (source : Iter) :
    Except PErr (AngleOrCorner × Bool × Iter) :=
  match source.next with
  | none => .error .fail
  | some (token, s1) =>
    match token with
    | .Dimension value unit =>
      match Angle.parse_dimension value unit with
      | .ok angle => .ok (.Angle angle, true, s1)
      | .error () =>
        match s1.push_back token with
        | .error e => .error e
        | .ok s2 => .ok (.Angle ⟨PI⟩, false, s2)
    | .Ident ident =>
      if eq_ignore_ascii_case ident "to" then
        match parse_to_loop (s1.size + 1) none none s1 with
        | .error e => .error e
        | .ok (horizontal, vertical, s2) =>
          match horizontal, vertical with
          | none, some .Top => .ok (.Angle ⟨⟨0, 0⟩⟩, true, s2)
          | some .Right, none => .ok (.Angle ⟨PiLin.scale 0.5 PI⟩, true, s2)
          | none, some .Bottom => .ok (.Angle ⟨PI⟩, true, s2)
          | some .Left, none => .ok (.Angle ⟨PiLin.scale 1.5 PI⟩, true, s2)
          | some h, some v => .ok (.Corner h v, true, s2)
          | none, none => .error .fail
      else
        match s1.push_back token with
        | .error e => .error e
        | .ok s2 => .ok (.Angle ⟨PI⟩, false, s2)
    | _ =>
      match s1.push_back token with
      | .error e => .error e
      | .ok s2 => .ok (.Angle ⟨PI⟩, false, s2)

/-- `LinearGradient::parse_function`: direction phase, then the color
stops (with the comma mandatory exactly when a direction was parsed), then
the at-least-2-stops check. -/
def LinearGradient.parse_function {C : Type}
    (cp : ComponentValue → Except Unit C) (args : List ComponentValue) :
    Except PErr (LinearGradient C) :=
  match parse_direction (Iter.ofTokens args) with
  | .error e => .error e
  | .ok (angle_or_corner, need_to_parse_comma, s1) =>
    match
      (if need_to_parse_comma then
        match s1.next with
        | some (.Comma, s2) => parse_comma_separated cp s2
        | none => .ok []
        | some _ => .error .fail
      else
        parse_comma_separated cp s1) with
    | .error e => .error e
    | .ok stops =>
      if stops.length < 2 then .error .fail
      else .ok { angle_or_corner := angle_or_corner, stops := stops }

end specified

namespace computed

open specified

/-- `computed::Context`, restricted to the fields this subsystem's
resolvers read plus the plain flags; the remaining fields have types from
the `longhands` module, which is outside this subsystem. -/
structure Context where
  font_size : Au
  root_font_size : Au
  positioned : Bool
  floated : Bool
  border_top_present : Bool
  border_right_present : Bool
  border_bottom_present : Bool
  border_left_present : Bool
  is_root_element : Bool

/-- `compute_CSSColor`: keep only the parsed color; authored text drops. -/
def compute_CSSColor {C : Type} (value : CSSColor C) (_context : Context) : C :=
  value.parsed

/-- `compute_Au_with_font_size`: resolve a specified length against the
reference and root font sizes. -/
def compute_Au_with_font_size (value : Length) (reference_font_size : Au)
    (root_font_size : Au) : Au :=
  match value with
  | .Au value => value
  | .Em value => reference_font_size.scale_by value
  | .Ex value =>
    let x_height : CSSFloat := 0.5
    reference_font_size.scale_by (value * x_height)
  | .Rem value => root_font_size.scale_by value
  | .ServoCharacterWidth value =>
    let average_advance := reference_font_size.scale_by 0.5
    let max_advance := reference_font_size
    average_advance.scale_by ((value : CSSFloat) - 1) + max_advance

/-- `compute_Au`. -/
def compute_Au (value : Length) (context : Context) : Au :=
  compute_Au_with_font_size value context.font_size context.root_font_size

end computed

/-- A concrete stand-in for the external color parser (an external
collaborator of this subsystem), used to instantiate the parameterised
gradient parser on concrete inputs: it accepts exactly the bare identifiers
`red`, `green` and `blue`, yielding the identifier itself as the opaque
color. -/
def demoColorParse : ComponentValue → Except Unit String
  | .Ident s =>
    if s = "red" ∨ s = "green" ∨ s = "blue" then .ok s else .error ()
  | _ => .error ()

namespace specified

/-- Spec-side (for the refinement statement of the `to` grammar): the
vertical axis keyword a direction word denotes, if any. -/
def specVerticalWord (w : String) : Option VerticalDirection :=
  if eq_ignore_ascii_case w "top" then some .Top
  else if eq_ignore_ascii_case w "bottom" then some .Bottom
  else none

/-- Spec-side: the horizontal axis keyword a direction word denotes. -/
def specHorizontalWord (w : String) : Option HorizontalDirection :=
  if eq_ignore_ascii_case w "left" then some .Left
  else if eq_ignore_ascii_case w "right" then some .Right
  else none

def isVerticalWord (w : String) : Bool := (specVerticalWord w).isSome

def isHorizontalWord (w : String) : Bool := (specHorizontalWord w).isSome

/-- Spec-side: a `to` direction word list is valid when every word is one
of top/bottom/left/right and each axis is named at most once. -/
def specAxesValid (ws : List String) : Prop :=
  (∀ w ∈ ws, isVerticalWord w = true ∨ isHorizontalWord w = true) ∧
  ws.countP (fun w => isVerticalWord w) ≤ 1 ∧
  ws.countP (fun w => isHorizontalWord w) ≤ 1

instance (ws : List String) : Decidable (specAxesValid ws) := by
  unfold specAxesValid; infer_instance

/-- Spec-side: the vertical axis named by the word list, if any. -/
def specVertical (ws : List String) : Option VerticalDirection :=
  (ws.find? (fun w => isVerticalWord w)).bind specVerticalWord

/-- Spec-side: the horizontal axis named by the word list, if any. -/
def specHorizontal (ws : List String) : Option HorizontalDirection :=
  (ws.find? (fun w => isHorizontalWord w)).bind specHorizontalWord

/-- Spec-side resolution table, written from the spec's words: only
vertical=Top gives Angle(0); only horizontal=Right gives Angle(π/2); only
vertical=Bottom gives Angle(π); only horizontal=Left gives Angle(3π/2);
both axes give Corner(horizontal, vertical); neither is an error. -/
def specResolve : Option HorizontalDirection → Option VerticalDirection →
    Option AngleOrCorner
  | none, some .Top => some (.Angle ⟨⟨0, 0⟩⟩)
  | some .Right, none => some (.Angle ⟨⟨0, 1 / 2⟩⟩)
  | none, some .Bottom => some (.Angle ⟨⟨0, 1⟩⟩)
  | some .Left, none => some (.Angle ⟨⟨0, 3 / 2⟩⟩)
  | some h, some v => some (.Corner h v)
  | none, none => none

end specified

/-! ## Helper lemmas -/

theorem f64_as_i32_of_nonneg {q : CSSFloat} (h : 0 ≤ q) :
    f64_as_i32 q = ⌊q⌋ := by
  rw [f64_as_i32, if_pos h]

theorem f64_as_i32_of_neg {q : CSSFloat} (h : ¬ 0 ≤ q) :
    f64_as_i32 q = -⌊-q⌋ := by
  rw [f64_as_i32, if_neg h]
  simp [Int.floor_neg]

/-- The truncating cast is the identity on integer values. -/
theorem f64_as_i32_intCast (n : Int) : f64_as_i32 ((n : ℚ)) = n := by
  by_cases h : 0 ≤ ((n : ℚ))
  · rw [f64_as_i32_of_nonneg h, Int.floor_intCast]
  · rw [f64_as_i32_of_neg h, ← Int.cast_neg, Int.floor_intCast]
    ring

/-- Truncation toward zero: the cast never moves away from zero, is within
one unit of the true value, and keeps the sign. -/
theorem f64_as_i32_trunc (q : CSSFloat) :
    |((f64_as_i32 q : ℚ))| ≤ |q| ∧ |q| < |((f64_as_i32 q : ℚ))| + 1 ∧
    (0 ≤ q → 0 ≤ f64_as_i32 q) ∧ (q ≤ 0 → f64_as_i32 q ≤ 0) := by
  by_cases h : 0 ≤ q
  · rw [f64_as_i32_of_nonneg h]
    have h1 : (0 : ℚ) ≤ (⌊q⌋ : ℚ) := by
      exact_mod_cast Int.floor_nonneg.mpr h
    have h2 : ((⌊q⌋ : ℚ)) ≤ q := Int.floor_le q
    have h3 : q < (⌊q⌋ : ℚ) + 1 := Int.lt_floor_add_one q
    refine ⟨?_, ?_, ?_, ?_⟩
    · rw [abs_of_nonneg h1, abs_of_nonneg h]; exact h2
    · rw [abs_of_nonneg h1, abs_of_nonneg h]; exact h3
    · intro _; exact_mod_cast h1
    · intro hle
      have : q = 0 := le_antisymm hle h
      subst this
      simp
  · rw [f64_as_i32_of_neg h]
    push_neg at h
    have h1 : (0 : ℚ) ≤ (⌊-q⌋ : ℚ) := by
      exact_mod_cast Int.floor_nonneg.mpr (by linarith)
    have h2 : ((⌊-q⌋ : ℚ)) ≤ -q := Int.floor_le (-q)
    have h3 : -q < (⌊-q⌋ : ℚ) + 1 := Int.lt_floor_add_one (-q)
    refine ⟨?_, ?_, ?_, ?_⟩
    · rw [abs_of_nonpos (by push_cast; linarith), abs_of_nonpos h.le]
      push_cast
      linarith
    · rw [abs_of_nonpos h.le, abs_of_nonpos (by push_cast; linarith)]
      push_cast
      linarith
    · intro hge; linarith
    · intro _
      have : (0 : ℤ) ≤ ⌊-q⌋ := by exact_mod_cast h1
      omega

namespace specified

/-! ## Claim theorems -/

/-- C9: serializing a `ServoCharacterWidth` length always signals the fatal
programming-error outcome, never a recoverable error and never a textual
result; the `Au`, `Em`, `Ex` and `Rem` variants all serialize to text. -/
theorem claim_C9 :
    (∀ n : Int, Length.fmt (.ServoCharacterWidth n) = .fatal) ∧
    (∀ a : Au, ∃ s, Length.fmt (.Au a) = .ok s) ∧
    (∀ v : CSSFloat, ∃ s, Length.fmt (.Em v) = .ok s) ∧
    (∀ v : CSSFloat, ∃ s, Length.fmt (.Ex v) = .ok s) ∧
    (∀ v : CSSFloat, ∃ s, Length.fmt (.Rem v) = .ok s) :=
  ⟨fun _ => rfl, fun _ => ⟨_, rfl⟩, fun _ => ⟨_, rfl⟩, fun _ => ⟨_, rfl⟩,
   fun _ => ⟨_, rfl⟩⟩

/-- C10: `LinearGradient::parse_function` on an empty argument list returns
the ordinary parse rejection (`PErr.fail`) — not the fatal signal and not a
gradient — for every external color parser. -/
theorem claim_C10 : ∀ (C : Type) (cp : ComponentValue → Except Unit C),
    LinearGradient.parse_function cp [] = .error .fail :=
  fun _ _ => rfl

/-- C8 counterexample: two specified `CSSColor` values with equal parsed
colors but different authored strings do NOT compare equal — the derived
structural equality also compares the authored text. -/
theorem claim_C8_counterexample :
    ¬ (({ parsed := "red", authored := some "red" } : CSSColor String) =
        { parsed := "red", authored := none }) := by
  simp

/-- C8 (amended): equality on specified `CSSColor` values compares both the
parsed color and the authored text; the authored text is excluded from the
computed color used by layout — `compute_CSSColor` keeps only the parsed
color, so two specified colors with equal parsed colors resolve to equal
computed colors. -/
theorem claim_C8 :
    (∀ (C : Type) (c1 c2 : CSSColor C),
        c1 = c2 ↔ c1.parsed = c2.parsed ∧ c1.authored = c2.authored) ∧
    (∀ (C : Type) (c1 c2 : CSSColor C) (context : computed.Context),
        c1.parsed = c2.parsed →
        computed.compute_CSSColor c1 context = computed.compute_CSSColor c2 context) := by
  constructor
  · intro C c1 c2
    cases c1
    cases c2
    simp [CSSColor.mk.injEq]
  · intro C c1 c2 context h
    exact h

theorem claim_C8_witness :
    (({ parsed := "red", authored := some "red" } : CSSColor String).parsed =
      ({ parsed := "red", authored := none } : CSSColor String).parsed) ∧
    computed.compute_CSSColor ({ parsed := "red", authored := some "red" } : CSSColor String)
        ⟨⟨600⟩, ⟨600⟩, false, false, false, false, false, false, false⟩ =
      computed.compute_CSSColor ({ parsed := "red", authored := none } : CSSColor String)
        ⟨⟨600⟩, ⟨600⟩, false, false, false, false, false, false, false⟩ :=
  ⟨rfl, claim_C8.2 String _ _ _ rfl⟩

end specified

namespace specified

/-- C5: the absolute units map to `Au` through the exact spec ratios with
the truncating-toward-zero cast (for both signs), `1in` parses identically
to `96px`, and an unknown unit is rejected. -/
theorem claim_C5 :
    (AU_PER_PX = 60 ∧ AU_PER_IN = 96 * AU_PER_PX ∧ AU_PER_CM = AU_PER_IN / 2.54 ∧
     AU_PER_MM = AU_PER_IN / 25.4 ∧ AU_PER_PT = AU_PER_IN / 72 ∧
     AU_PER_PC = 12 * AU_PER_PT) ∧
    (Length.parse_dimension 1 "in" = Length.parse_dimension 96 "px") ∧
    (∀ v : CSSFloat,
      Length.parse_dimension v "px" = .ok (.Au ⟨f64_as_i32 (v * AU_PER_PX)⟩) ∧
      Length.parse_dimension v "in" = .ok (.Au ⟨f64_as_i32 (v * AU_PER_IN)⟩) ∧
      Length.parse_dimension v "cm" = .ok (.Au ⟨f64_as_i32 (v * AU_PER_CM)⟩) ∧
      Length.parse_dimension v "mm" = .ok (.Au ⟨f64_as_i32 (v * AU_PER_MM)⟩) ∧
      Length.parse_dimension v "pt" = .ok (.Au ⟨f64_as_i32 (v * AU_PER_PT)⟩) ∧
      Length.parse_dimension v "pc" = .ok (.Au ⟨f64_as_i32 (v * AU_PER_PC)⟩)) ∧
    (∀ q : CSSFloat,
      |((f64_as_i32 q : ℚ))| ≤ |q| ∧ |q| < |((f64_as_i32 q : ℚ))| + 1 ∧
      (0 ≤ q → 0 ≤ f64_as_i32 q) ∧ (q ≤ 0 → f64_as_i32 q ≤ 0)) ∧
    (∀ (v : CSSFloat) (u : String),
      to_ascii_lower u ∉
        (["px", "in", "cm", "mm", "pt", "pc", "em", "ex", "rem"] : List String) →
      Length.parse_dimension v u = .error ()) := by
  refine ⟨⟨rfl, ?_, rfl, rfl, rfl, ?_⟩, ?_, ?_, f64_as_i32_trunc, ?_⟩
  · norm_num [AU_PER_IN, AU_PER_PX]
  · rw [AU_PER_PC]; ring
  · show Except.ok (Length.Au ⟨f64_as_i32 ((1 : ℚ) * AU_PER_IN)⟩) =
      Except.ok (Length.Au ⟨f64_as_i32 ((96 : ℚ) * AU_PER_PX)⟩)
    have h : (1 : ℚ) * AU_PER_IN = (96 : ℚ) * AU_PER_PX := by
      norm_num [AU_PER_IN, AU_PER_PX]
    rw [h]
  · intro v
    exact ⟨rfl, rfl, rfl, rfl, rfl, rfl⟩
  · intro v u hu
    simp only [Length.parse_dimension]
    split
    all_goals first
      | rfl
      | (exfalso; apply hu; simp_all)

theorem claim_C5_witness :
    (to_ascii_lower "vw" ∉
      (["px", "in", "cm", "mm", "pt", "pc", "em", "ex", "rem"] : List String)) ∧
    Length.parse_dimension 1 "vw" = .error () ∧
    (0 ≤ (26 / 5 : ℚ)) ∧ 0 ≤ f64_as_i32 (26 / 5 : ℚ) ∧
    ((-(26 / 5) : ℚ) ≤ 0) ∧ f64_as_i32 (-(26 / 5) : ℚ) ≤ 0 :=
  ⟨by decide, claim_C5.2.2.2.2 1 "vw" (by decide),
   by norm_num, (claim_C5.2.2.2.1 (26 / 5)).2.2.1 (by norm_num),
   by norm_num, (claim_C5.2.2.2.1 (-(26 / 5))).2.2.2 (by norm_num)⟩

end specified

namespace specified

/-- C4 counterexample: `Dimension(−0.001, px)` has a negative numeric value
and a known length unit, yet the unrestricted parse succeeds with the ZERO
Absolute length (truncation toward zero), not a negative length. -/
theorem claim_C4_counterexample :
    Length.parse (.Dimension (-(1 / 1000) : ℚ) "px") = .ok (.Au ⟨0⟩) ∧
    ¬ ((Au.mk 0).val < 0) := by
  constructor
  · show Except.ok (Length.Au ⟨f64_as_i32 ((-(1 / 1000) : ℚ) * AU_PER_PX)⟩) =
      Except.ok (Length.Au ⟨0⟩)
    have h : f64_as_i32 ((-(1 / 1000) : ℚ) * AU_PER_PX) = 0 := by
      rw [show ((-(1 / 1000) : ℚ) * AU_PER_PX) = -(3 / 50) by
            norm_num [AU_PER_PX],
          f64_as_i32_of_neg (by norm_num)]
      norm_num
    rw [h]
  · simp

/-- C4 (amended): for every `Dimension` token with a negative value and a
known length unit the non-negative entry points of every family reject
while the unrestricted parse succeeds (yielding whatever `parse_dimension`
yields — the negative Absolute length for `−5px`, but possibly the zero
length for tiny negative values); a bare `Number` equal to 0 is accepted as
the zero Absolute length by both entry points of every family. -/
theorem claim_C4 :
    (∀ (v : CSSFloat) (u : String) (l : Length), v < 0 →
      Length.parse_dimension v u = .ok l →
      Length.parse_non_negative (.Dimension v u) = .error () ∧
      Length.parse (.Dimension v u) = .ok l ∧
      LengthOrPercentage.parse_non_negative (.Dimension v u) = .error () ∧
      LengthOrPercentageOrAuto.parse_non_negative (.Dimension v u) = .error () ∧
      LengthOrPercentageOrNone.parse_non_negative (.Dimension v u) = .error ()) ∧
    (Length.parse (.Number 0) = .ok (.Au ⟨0⟩) ∧
     Length.parse_non_negative (.Number 0) = .ok (.Au ⟨0⟩) ∧
     LengthOrPercentage.parse (.Number 0) = .ok (.Length (.Au ⟨0⟩)) ∧
     LengthOrPercentage.parse_non_negative (.Number 0) = .ok (.Length (.Au ⟨0⟩)) ∧
     LengthOrPercentageOrAuto.parse_non_negative (.Number 0) = .ok (.Length (.Au ⟨0⟩)) ∧
     LengthOrPercentageOrNone.parse_non_negative (.Number 0) = .ok (.Length (.Au ⟨0⟩))) := by
  constructor
  · intro v u l hv hl
    have hguard : decide ((0 : ℚ) ≤ v) = false := by
      simp [decide_eq_false_iff_not, not_le, hv]
    refine ⟨?_, ?_, ?_, ?_, ?_⟩
    · simp [Length.parse_non_negative, Length.parse_internal, hguard]
    · simp [Length.parse, Length.parse_internal, hl]
    · simp [LengthOrPercentage.parse_non_negative,
        LengthOrPercentage.parse_internal, hguard]
    · simp [LengthOrPercentageOrAuto.parse_non_negative,
        LengthOrPercentageOrAuto.parse_internal, hguard]
    · simp [LengthOrPercentageOrNone.parse_non_negative,
        LengthOrPercentageOrNone.parse_internal, hguard]
  · exact ⟨rfl, rfl, rfl, rfl, rfl, rfl⟩

theorem claim_C4_witness :
    ((-5 : ℚ) < 0) ∧
    Length.parse_dimension (-5) "px" = .ok (.Au ⟨-300⟩) ∧
    Length.parse_non_negative (.Dimension (-5) "px") = .error () ∧
    Length.parse (.Dimension (-5) "px") = .ok (.Au ⟨-300⟩) ∧
    LengthOrPercentage.parse_non_negative (.Dimension (-5) "px") = .error () := by
  have hv : (-5 : ℚ) < 0 := by norm_num
  have hl : Length.parse_dimension (-5) "px" = .ok (.Au ⟨-300⟩) := by
    show Except.ok (Length.Au ⟨f64_as_i32 ((-5 : ℚ) * AU_PER_PX)⟩) =
      Except.ok (Length.Au ⟨-300⟩)
    have h : f64_as_i32 ((-5 : ℚ) * AU_PER_PX) = -300 := by
      rw [show ((-5 : ℚ) * AU_PER_PX) = -300 by norm_num [AU_PER_PX],
        f64_as_i32_of_neg (by norm_num)]
      norm_num
    rw [h]
  have hmain := claim_C4.1 (-5) "px" (.Au ⟨-300⟩) hv hl
  exact ⟨hv, hl, hmain.1, hmain.2.1, hmain.2.2.1⟩

end specified

namespace computed

open specified

/-- C6 counterexample: with the odd font size F = 601 units,
`CharacterWidth(3)` resolves to 1201, not 2·F = 1202 — `scale_by 0.5`
truncates the half unit. -/
theorem claim_C6_counterexample :
    compute_Au_with_font_size (.ServoCharacterWidth 3) ⟨601⟩ ⟨601⟩ = ⟨1201⟩ ∧
    (Au.mk 1201) ≠ ⟨2 * 601⟩ := by
  constructor
  · show Au.scale_by (Au.scale_by ⟨601⟩ 0.5) (((3 : Int) : CSSFloat) - 1) + ⟨601⟩ =
      ⟨1201⟩
    have h1 : Au.scale_by ⟨601⟩ 0.5 = ⟨300⟩ := by
      show Au.mk (f64_as_i32 ((601 : ℚ) * 0.5)) = ⟨300⟩
      rw [show ((601 : ℚ) * 0.5) = 601 / 2 by norm_num,
        f64_as_i32_of_nonneg (by norm_num)]
      norm_num
    rw [h1]
    show Au.mk (f64_as_i32 ((300 : ℚ) * (((3 : Int) : CSSFloat) - 1))) + ⟨601⟩ =
      ⟨1201⟩
    rw [show ((300 : ℚ) * (((3 : Int) : CSSFloat) - 1)) = 600 by push_cast; ring,
      f64_as_i32_of_nonneg (by norm_num)]
    norm_num
    rfl
  · decide

/-- C6 (amended): `compute_Au_with_font_size` resolves Absolute lengths to
themselves, `Em(v)` to the font size scaled by `v`, `Ex(v)` to the font
size scaled by `v·0.5`, `Rem(v)` to the root font size scaled by `v`, and
`CharacterWidth(n)` to `(font size scaled by 0.5) scaled by (n−1)` plus the
font size; `CharacterWidth(1)` computes to exactly the font size for every
font size, while `CharacterWidth(3)` computes to twice the font size for
every even font size (truncation of `F·0.5` loses half a unit when `F` is
odd, as the counterexample shows). -/
theorem claim_C6 :
    (∀ (a F R : Au), compute_Au_with_font_size (.Au a) F R = a) ∧
    (∀ (v : CSSFloat) (F R : Au),
      compute_Au_with_font_size (.Em v) F R = F.scale_by v) ∧
    (∀ (v : CSSFloat) (F R : Au),
      compute_Au_with_font_size (.Ex v) F R = F.scale_by (v * 0.5)) ∧
    (∀ (v : CSSFloat) (F R : Au),
      compute_Au_with_font_size (.Rem v) F R = R.scale_by v) ∧
    (∀ (n : Int) (F R : Au),
      compute_Au_with_font_size (.ServoCharacterWidth n) F R =
        (F.scale_by 0.5).scale_by ((n : CSSFloat) - 1) + F) ∧
    (∀ (F R : Au),
      compute_Au_with_font_size (.ServoCharacterWidth 1) F R = F) ∧
    (∀ (k : Int) (R : Au),
      compute_Au_with_font_size (.ServoCharacterWidth 3) ⟨2 * k⟩ R =
        ⟨2 * (2 * k)⟩) := by
  refine ⟨fun a F R => rfl, fun v F R => rfl, fun v F R => rfl,
    fun v F R => rfl, fun n F R => rfl, ?_, ?_⟩
  · intro F R
    show (F.scale_by 0.5).scale_by (((1 : Int) : CSSFloat) - 1) + F = F
    have h : (F.scale_by 0.5).scale_by (((1 : Int) : CSSFloat) - 1) = ⟨0⟩ := by
      show Au.mk (f64_as_i32 (((F.scale_by 0.5).val : ℚ) *
        (((1 : Int) : CSSFloat) - 1))) = ⟨0⟩
      rw [show ((((F.scale_by 0.5).val : ℚ)) * (((1 : Int) : CSSFloat) - 1)) = 0 by
          push_cast; ring,
        f64_as_i32_of_nonneg le_rfl]
      norm_num
    rw [h]
    show Au.mk (0 + F.val) = F
    simp
  · intro k R
    show (Au.scale_by ⟨2 * k⟩ 0.5).scale_by (((3 : Int) : CSSFloat) - 1) + ⟨2 * k⟩ =
      ⟨2 * (2 * k)⟩
    have h1 : Au.scale_by ⟨2 * k⟩ 0.5 = ⟨k⟩ := by
      show Au.mk (f64_as_i32 (((2 * k : Int) : ℚ) * 0.5)) = ⟨k⟩
      rw [show (((2 * k : Int) : ℚ) * 0.5) = ((k : Int) : ℚ) by push_cast; ring,
        f64_as_i32_intCast]
    rw [h1]
    have h2 : Au.scale_by ⟨k⟩ (((3 : Int) : CSSFloat) - 1) = ⟨2 * k⟩ := by
      show Au.mk (f64_as_i32 (((k : Int) : ℚ) * (((3 : Int) : CSSFloat) - 1))) =
        ⟨2 * k⟩
      rw [show (((k : Int) : ℚ) * (((3 : Int) : CSSFloat) - 1)) =
            ((2 * k : Int) : ℚ) by push_cast; ring,
        f64_as_i32_intCast]
    rw [h2]
    show Au.mk (2 * k + 2 * k) = ⟨2 * (2 * k)⟩
    congr 1
    ring

end computed

namespace specified

/-- C2: a successfully parsed linear gradient always has at least 2 color
stops (for every color parser and argument list); concretely,
`linear-gradient(red)` is rejected even though its single stop parses,
while `linear-gradient(red, blue)` succeeds with direction Angle(π),
exactly 2 stops, and no stop positions. -/
theorem claim_C2 :
    (∀ (C : Type) (cp : ComponentValue → Except Unit C)
        (args : List ComponentValue) (g : LinearGradient C),
      LinearGradient.parse_function cp args = .ok g → 2 ≤ g.stops.length) ∧
    (LinearGradient.parse_function demoColorParse [.Ident "red"] =
      .error .fail) ∧
    (LinearGradient.parse_function demoColorParse
        [.Ident "red", .Comma, .WhiteSpace, .Ident "blue"] =
      .ok { angle_or_corner := .Angle ⟨PI⟩,
            stops := [
              { color := { parsed := "red", authored := some "red" },
                position := none },
              { color := { parsed := "blue", authored := some "blue" },
                position := none } ] }) := by
  refine ⟨?_, rfl, rfl⟩
  intro C cp args g h
  simp only [LinearGradient.parse_function] at h
  split at h
  · simp at h
  · split at h
    · simp at h
    · split at h
      · simp at h
      next hlen =>
        cases h
        exact Nat.not_lt.mp hlen

theorem claim_C2_witness :
    2 ≤ (({ angle_or_corner := .Angle ⟨PI⟩,
            stops := [
              { color := { parsed := "red", authored := some "red" },
                position := none },
              { color := { parsed := "blue", authored := some "blue" },
                position := none } ] } : LinearGradient String)).stops.length :=
  claim_C2.1 String demoColorParse [.Ident "red", .Comma, .Ident "blue"] _ rfl

/-- C3: if the first token of the argument list is neither a Dimension
that parses as an angle nor the identifier `to` (case-insensitively), the
direction phase pushes that token back, yields the default direction
Angle(π) and does not make the comma mandatory; concretely,
`linear-gradient(red, green, blue)` succeeds with direction Angle(π) and 3
stops, with no leading comma. -/
theorem claim_C3 :
    (∀ (t : ComponentValue) (rest : List ComponentValue),
      t.isWhiteSpace = false →
      (∀ v u, t = .Dimension v u → Angle.parse_dimension v u = .error ()) →
      (∀ s, t = .Ident s → eq_ignore_ascii_case s "to" = false) →
      parse_direction (Iter.ofTokens (t :: rest)) =
        .ok (.Angle ⟨PI⟩, false,
          ⟨some t, rest.filter (fun x => !x.isWhiteSpace)⟩)) ∧
    (LinearGradient.parse_function demoColorParse
        [.Ident "red", .Comma, .WhiteSpace, .Ident "green", .Comma,
         .WhiteSpace, .Ident "blue"] =
      .ok { angle_or_corner := .Angle ⟨PI⟩,
            stops := [
              { color := { parsed := "red", authored := some "red" },
                position := none },
              { color := { parsed := "green", authored := some "green" },
                position := none },
              { color := { parsed := "blue", authored := some "blue" },
                position := none } ] }) := by
  refine ⟨?_, rfl⟩
  intro t rest hw hd hi
  have hfilter : (t :: rest).filter (fun x => !x.isWhiteSpace) =
      t :: rest.filter (fun x => !x.isWhiteSpace) := by
    simp [List.filter_cons, hw]
  cases t with
  | Dimension v u =>
    simp [parse_direction, Iter.ofTokens, hfilter, Iter.next, Iter.push_back,
      hd v u rfl]
  | Ident s =>
    simp [parse_direction, Iter.ofTokens, hfilter, Iter.next, Iter.push_back,
      hi s rfl]
  | WhiteSpace => simp [ComponentValue.isWhiteSpace] at hw
  | Number v =>
    simp [parse_direction, Iter.ofTokens, hfilter, Iter.next, Iter.push_back]
  | Percentage v =>
    simp [parse_direction, Iter.ofTokens, hfilter, Iter.next, Iter.push_back]
  | Comma =>
    simp [parse_direction, Iter.ofTokens, hfilter, Iter.next, Iter.push_back]
  | URL v =>
    simp [parse_direction, Iter.ofTokens, hfilter, Iter.next, Iter.push_back]
  | Function n a =>
    simp [parse_direction, Iter.ofTokens, hfilter, Iter.next, Iter.push_back]

theorem claim_C3_witness :
    (ComponentValue.isWhiteSpace (.Ident "red") = false) ∧
    parse_direction (Iter.ofTokens [.Ident "red", .Comma, .Ident "blue"]) =
      .ok (.Angle ⟨PI⟩, false, ⟨some (.Ident "red"), [.Comma, .Ident "blue"]⟩) :=
  ⟨rfl, claim_C3.1 (.Ident "red") [.Comma, .Ident "blue"] rfl
    (fun v u h => nomatch h) (fun s h => by cases h; rfl)⟩

/-- C7: once a direction was parsed (so the comma is mandatory), the whole
gradient parse rejects unless the next token is a Comma — in particular it
rejects when the input ends right after the direction (then no stop at all
is parsed, failing the 2-stop minimum). -/
theorem claim_C7 :
    ∀ (C : Type) (cp : ComponentValue → Except Unit C)
      (args : List ComponentValue) (aoc : AngleOrCorner) (it : Iter),
      parse_direction (Iter.ofTokens args) = .ok (aoc, true, it) →
      (∀ t it2, it.next = some (t, it2) → t ≠ .Comma) →
      LinearGradient.parse_function cp args = .error .fail := by
  intro C cp args aoc it hdir hnc
  simp only [LinearGradient.parse_function, hdir]
  cases hn : it.next with
  | none => simp
  | some p =>
    obtain ⟨t, it2⟩ := p
    have ht : t ≠ .Comma := hnc t it2 hn
    cases t <;> simp_all

theorem claim_C7_witness :
    parse_direction (Iter.ofTokens [.Dimension 90 "deg"]) =
      .ok (.Angle ⟨PiLin.scale 90 DEG_TO_RAD⟩, true, ⟨none, []⟩) ∧
    LinearGradient.parse_function demoColorParse [.Dimension 90 "deg"] =
      .error .fail :=
  ⟨rfl, claim_C7 String demoColorParse [.Dimension 90 "deg"] _ _ rfl
    (fun t it2 h => nomatch h)⟩

end specified

namespace specified

/-- Spec-side: the first-set axis wins (under validity an axis is set at
most once, so this is the unique axis named). -/
def firstSet {α : Type} : Option α → Option α → Option α
  | some a, _ => some a
  | none, o => o

theorem firstSet_none_left {α : Type} (o : Option α) : firstSet none o = o := rfl

theorem firstSet_some_left {α : Type} (a : α) (o : Option α) :
    firstSet (some a) o = some a := rfl

theorem firstSet_none_right {α : Type} (o : Option α) : firstSet o none = o := by
  cases o <;> rfl

/-- Spec-side: validity of a direction word list relative to an
intermediate loop state — every word names an axis, and each axis has
remaining capacity 1 when unset and 0 when already set. -/
def specValidFrom (hz : Option HorizontalDirection)
    (vt : Option VerticalDirection) (ws : List String) : Prop :=
  (∀ w ∈ ws, isVerticalWord w = true ∨ isHorizontalWord w = true) ∧
  ws.countP (fun w => isVerticalWord w) ≤ (if vt.isNone then 1 else 0) ∧
  ws.countP (fun w => isHorizontalWord w) ≤ (if hz.isNone then 1 else 0)

instance (hz : Option HorizontalDirection) (vt : Option VerticalDirection)
    (ws : List String) : Decidable (specValidFrom hz vt ws) := by
  unfold specValidFrom
  infer_instance

theorem specValidFrom_none_none (ws : List String) :
    specValidFrom none none ws ↔ specAxesValid ws := Iff.rfl

theorem isVerticalWord_eq (w : String) :
    isVerticalWord w =
      (eq_ignore_ascii_case w "top" || eq_ignore_ascii_case w "bottom") := by
  unfold isVerticalWord specVerticalWord
  by_cases h1 : eq_ignore_ascii_case w "top" <;>
    by_cases h2 : eq_ignore_ascii_case w "bottom" <;>
    simp [h1, h2]

theorem isHorizontalWord_eq (w : String) :
    isHorizontalWord w =
      (eq_ignore_ascii_case w "left" || eq_ignore_ascii_case w "right") := by
  unfold isHorizontalWord specHorizontalWord
  by_cases h1 : eq_ignore_ascii_case w "left" <;>
    by_cases h2 : eq_ignore_ascii_case w "right" <;>
    simp [h1, h2]

/-- A word whose ASCII lowering matches `s1` cannot also match an `s2`
with a different lowering. -/
theorem eqic_unique {w s1 s2 : String}
    (h : eq_ignore_ascii_case w s1 = true)
    (hne : to_ascii_lower s1 ≠ to_ascii_lower s2) :
    eq_ignore_ascii_case w s2 = false := by
  simp only [eq_ignore_ascii_case, beq_iff_eq] at h
  simp only [eq_ignore_ascii_case, beq_eq_false_iff_ne, ne_eq, h]
  exact hne

end specified

namespace specified

theorem Iter.size_mk_none (l : List ComponentValue) :
    (⟨none, l⟩ : Iter).size = l.length := by
  simp [Iter.size]

theorem specVerticalWord_top {w : String}
    (h : eq_ignore_ascii_case w "top" = true) :
    specVerticalWord w = some .Top := by
  simp [specVerticalWord, h]

theorem specVerticalWord_bottom {w : String}
    (h1 : eq_ignore_ascii_case w "top" = false)
    (h2 : eq_ignore_ascii_case w "bottom" = true) :
    specVerticalWord w = some .Bottom := by
  simp [specVerticalWord, h1, h2]

theorem specHorizontalWord_left {w : String}
    (h : eq_ignore_ascii_case w "left" = true) :
    specHorizontalWord w = some .Left := by
  simp [specHorizontalWord, h]

theorem specHorizontalWord_right {w : String}
    (h1 : eq_ignore_ascii_case w "left" = false)
    (h2 : eq_ignore_ascii_case w "right" = true) :
    specHorizontalWord w = some .Right := by
  simp [specHorizontalWord, h1, h2]

theorem specVertical_cons_pos {w : String} {ws : List String}
    (h : isVerticalWord w = true) :
    specVertical (w :: ws) = specVerticalWord w := by
  simp [specVertical, List.find?_cons_of_pos, h]

theorem specVertical_cons_neg {w : String} {ws : List String}
    (h : isVerticalWord w = false) :
    specVertical (w :: ws) = specVertical ws := by
  simp [specVertical, List.find?_cons_of_neg, h]

theorem specHorizontal_cons_pos {w : String} {ws : List String}
    (h : isHorizontalWord w = true) :
    specHorizontal (w :: ws) = specHorizontalWord w := by
  simp [specHorizontal, List.find?_cons_of_pos, h]

theorem specHorizontal_cons_neg {w : String} {ws : List String}
    (h : isHorizontalWord w = false) :
    specHorizontal (w :: ws) = specHorizontal ws := by
  simp [specHorizontal, List.find?_cons_of_neg, h]

theorem specValidFrom_cons_vertical {hz : Option HorizontalDirection}
    (d : VerticalDirection) {w : String} {ws : List String}
    (hisv : isVerticalWord w = true) (hish : isHorizontalWord w = false) :
    (specValidFrom hz none (w :: ws) ↔ specValidFrom hz (some d) ws) := by
  unfold specValidFrom
  rw [List.countP_cons, List.countP_cons]
  simp [hisv, hish, List.mem_cons]

theorem specValidFrom_cons_horizontal {vt : Option VerticalDirection}
    (d : HorizontalDirection) {w : String} {ws : List String}
    (hisv : isVerticalWord w = false) (hish : isHorizontalWord w = true) :
    (specValidFrom none vt (w :: ws) ↔ specValidFrom (some d) vt ws) := by
  unfold specValidFrom
  rw [List.countP_cons, List.countP_cons]
  simp [hisv, hish, List.mem_cons]

theorem specValidFrom_cons_vertical_set {hz : Option HorizontalDirection}
    {v0 : VerticalDirection} {w : String} {ws : List String}
    (hisv : isVerticalWord w = true) :
    ¬ specValidFrom hz (some v0) (w :: ws) := by
  rintro ⟨_, h2, _⟩
  rw [List.countP_cons] at h2
  simp [hisv] at h2

theorem specValidFrom_cons_horizontal_set {vt : Option VerticalDirection}
    {h0 : HorizontalDirection} {w : String} {ws : List String}
    (hish : isHorizontalWord w = true) :
    ¬ specValidFrom (some h0) vt (w :: ws) := by
  rintro ⟨_, _, h3⟩
  rw [List.countP_cons] at h3
  simp [hish] at h3

theorem specValidFrom_cons_unknown {hz : Option HorizontalDirection}
    {vt : Option VerticalDirection} {w : String} {ws : List String}
    (hisv : isVerticalWord w = false) (hish : isHorizontalWord w = false) :
    ¬ specValidFrom hz vt (w :: ws) := by
  rintro ⟨h1, _, _⟩
  have := h1 w (List.mem_cons_self w ws)
  simp [hisv, hish] at this

end specified

namespace specified

/-- The loop at a `Comma`: push it back and stop, with the state kept. -/
theorem parse_to_loop_comma (rest : List ComponentValue) :
    ∀ (fuel : Nat) (hz : Option HorizontalDirection)
      (vt : Option VerticalDirection),
      (⟨none, .Comma :: rest⟩ : Iter).size < fuel →
      parse_to_loop fuel hz vt ⟨none, .Comma :: rest⟩ =
        .ok (hz, vt, ⟨some .Comma, rest⟩) := by
  intro fuel hz vt hsize
  match fuel with
  | 0 => exact absurd hsize (by omega)
  | fuel + 1 => simp [parse_to_loop, Iter.next, Iter.push_back]

/-- The loop at end-of-input: stop with the state kept. -/
theorem parse_to_loop_nil :
    ∀ (fuel : Nat) (hz : Option HorizontalDirection)
      (vt : Option VerticalDirection),
      (⟨none, []⟩ : Iter).size < fuel →
      parse_to_loop fuel hz vt ⟨none, []⟩ = .ok (hz, vt, ⟨none, []⟩) := by
  intro fuel hz vt hsize
  match fuel with
  | 0 => exact absurd hsize (by omega)
  | fuel + 1 => simp [parse_to_loop, Iter.next]

/-- Refinement of the `to` identifier loop against the declarative
word-list reading of the spec: starting from any intermediate state, over
any direction word list followed by a terminator (`Comma` or end), the
loop succeeds exactly on the valid lists, accumulating the first word
naming each axis. -/
theorem parse_to_loop_spec (tl : List ComponentValue) (fin : Iter)
    (htl : ∀ (fuel : Nat) (hz : Option HorizontalDirection)
        (vt : Option VerticalDirection),
      (⟨none, tl⟩ : Iter).size < fuel →
      parse_to_loop fuel hz vt ⟨none, tl⟩ = .ok (hz, vt, fin)) :
    ∀ (ws : List String) (fuel : Nat) (hz : Option HorizontalDirection)
      (vt : Option VerticalDirection),
      (⟨none, ws.map ComponentValue.Ident ++ tl⟩ : Iter).size < fuel →
      parse_to_loop fuel hz vt ⟨none, ws.map ComponentValue.Ident ++ tl⟩ =
        (if specValidFrom hz vt ws then
          .ok (firstSet hz (specHorizontal ws),
               firstSet vt (specVertical ws), fin)
        else .error .fail) := by
  intro ws
  induction ws with
  | nil =>
    intro fuel hz vt hsize
    rw [if_pos ⟨by simp, by simp, by simp⟩]
    simpa [specHorizontal, specVertical, firstSet_none_right] using
      htl fuel hz vt (by simpa using hsize)
  | cons w ws ih =>
    intro fuel hz vt hsize
    match fuel with
    | 0 => exact absurd hsize (by omega)
    | fuel + 1 =>
      rw [Iter.size_mk_none] at hsize
      have hsize' :
          (⟨none, ws.map ComponentValue.Ident ++ tl⟩ : Iter).size < fuel := by
        rw [Iter.size_mk_none]
        simp only [List.map_cons, List.cons_append, List.length_cons] at hsize
        omega
      show parse_to_loop (fuel + 1) hz vt
          ⟨none, .Ident w :: (ws.map ComponentValue.Ident ++ tl)⟩ = _
      by_cases hbt : eq_ignore_ascii_case w "top" = true
      · have hbb := eqic_unique hbt (show to_ascii_lower "top" ≠
          to_ascii_lower "bottom" by decide)
        have hbl := eqic_unique hbt (show to_ascii_lower "top" ≠
          to_ascii_lower "left" by decide)
        have hbr := eqic_unique hbt (show to_ascii_lower "top" ≠
          to_ascii_lower "right" by decide)
        have hisv : isVerticalWord w = true := by
          rw [isVerticalWord_eq, hbt, Bool.true_or]
        have hish : isHorizontalWord w = false := by
          rw [isHorizontalWord_eq, hbl, hbr]
          rfl
        cases vt with
        | none =>
          rw [show parse_to_loop (fuel + 1) hz none
              ⟨none, .Ident w :: (ws.map ComponentValue.Ident ++ tl)⟩ =
              parse_to_loop fuel hz (some .Top)
                ⟨none, ws.map ComponentValue.Ident ++ tl⟩ by
            simp [parse_to_loop, Iter.next, hbt]]
          rw [ih fuel hz (some .Top) hsize']
          rw [specVertical_cons_pos hisv, specVerticalWord_top hbt,
            specHorizontal_cons_neg hish]
          by_cases hv : specValidFrom hz (some .Top) ws
          · rw [if_pos hv,
              if_pos ((specValidFrom_cons_vertical .Top hisv hish).mpr hv)]
            rfl
          · rw [if_neg hv,
              if_neg (fun hc =>
                hv ((specValidFrom_cons_vertical .Top hisv hish).mp hc))]
        | some v0 =>
          rw [show parse_to_loop (fuel + 1) hz (some v0)
              ⟨none, .Ident w :: (ws.map ComponentValue.Ident ++ tl)⟩ =
              .error .fail by
            simp [parse_to_loop, Iter.next, hbt, hbb, hbl, hbr]]
          rw [if_neg (specValidFrom_cons_vertical_set hisv)]
      · by_cases hbb : eq_ignore_ascii_case w "bottom" = true
        · have hbl := eqic_unique hbb (show to_ascii_lower "bottom" ≠
            to_ascii_lower "left" by decide)
          have hbr := eqic_unique hbb (show to_ascii_lower "bottom" ≠
            to_ascii_lower "right" by decide)
          have hbt' : eq_ignore_ascii_case w "top" = false :=
            Bool.not_eq_true _ ▸ (by simpa using hbt)
          have hisv : isVerticalWord w = true := by
            rw [isVerticalWord_eq, hbb, Bool.or_true]
          have hish : isHorizontalWord w = false := by
            rw [isHorizontalWord_eq, hbl, hbr]
            rfl
          cases vt with
          | none =>
            rw [show parse_to_loop (fuel + 1) hz none
                ⟨none, .Ident w :: (ws.map ComponentValue.Ident ++ tl)⟩ =
                parse_to_loop fuel hz (some .Bottom)
                  ⟨none, ws.map ComponentValue.Ident ++ tl⟩ by
              simp [parse_to_loop, Iter.next, hbt', hbb]]
            rw [ih fuel hz (some .Bottom) hsize']
            rw [specVertical_cons_pos hisv,
              specVerticalWord_bottom hbt' hbb,
              specHorizontal_cons_neg hish]
            by_cases hv : specValidFrom hz (some .Bottom) ws
            · rw [if_pos hv,
                if_pos ((specValidFrom_cons_vertical .Bottom hisv hish).mpr hv)]
              rfl
            · rw [if_neg hv,
                if_neg (fun hc =>
                  hv ((specValidFrom_cons_vertical .Bottom hisv hish).mp hc))]
          | some v0 =>
            rw [show parse_to_loop (fuel + 1) hz (some v0)
                ⟨none, .Ident w :: (ws.map ComponentValue.Ident ++ tl)⟩ =
                .error .fail by
              simp [parse_to_loop, Iter.next, hbt', hbb, hbl, hbr]]
            rw [if_neg (specValidFrom_cons_vertical_set hisv)]
        · by_cases hbl : eq_ignore_ascii_case w "left" = true
          · have hbr := eqic_unique hbl (show to_ascii_lower "left" ≠
              to_ascii_lower "right" by decide)
            have hbt' : eq_ignore_ascii_case w "top" = false := by
              simpa using hbt
            have hbb' : eq_ignore_ascii_case w "bottom" = false := by
              simpa using hbb
            have hisv : isVerticalWord w = false := by
              rw [isVerticalWord_eq, hbt', hbb']
              rfl
            have hish : isHorizontalWord w = true := by
              rw [isHorizontalWord_eq, hbl, Bool.true_or]
            cases hz with
            | none =>
              rw [show parse_to_loop (fuel + 1) none vt
                  ⟨none, .Ident w :: (ws.map ComponentValue.Ident ++ tl)⟩ =
                  parse_to_loop fuel (some .Left) vt
                    ⟨none, ws.map ComponentValue.Ident ++ tl⟩ by
                simp [parse_to_loop, Iter.next, hbt', hbb', hbl]]
              rw [ih fuel (some .Left) vt hsize']
              rw [specHorizontal_cons_pos hish,
                specHorizontalWord_left hbl,
                specVertical_cons_neg hisv]
              by_cases hv : specValidFrom (some .Left) vt ws
              · rw [if_pos hv,
                  if_pos ((specValidFrom_cons_horizontal .Left hisv hish).mpr hv)]
                rfl
              · rw [if_neg hv,
                  if_neg (fun hc =>
                    hv ((specValidFrom_cons_horizontal .Left hisv hish).mp hc))]
            | some h0 =>
              rw [show parse_to_loop (fuel + 1) (some h0) vt
                  ⟨none, .Ident w :: (ws.map ComponentValue.Ident ++ tl)⟩ =
                  .error .fail by
                simp [parse_to_loop, Iter.next, hbt', hbb', hbl, hbr]]
              rw [if_neg (specValidFrom_cons_horizontal_set hish)]
          · by_cases hbr : eq_ignore_ascii_case w "right" = true
            · have hbt' : eq_ignore_ascii_case w "top" = false := by
                simpa using hbt
              have hbb' : eq_ignore_ascii_case w "bottom" = false := by
                simpa using hbb
              have hbl' : eq_ignore_ascii_case w "left" = false := by
                simpa using hbl
              have hisv : isVerticalWord w = false := by
                rw [isVerticalWord_eq, hbt', hbb']
                rfl
              have hish : isHorizontalWord w = true := by
                rw [isHorizontalWord_eq, hbr, Bool.or_true]
              cases hz with
              | none =>
                rw [show parse_to_loop (fuel + 1) none vt
                    ⟨none, .Ident w :: (ws.map ComponentValue.Ident ++ tl)⟩ =
                    parse_to_loop fuel (some .Right) vt
                      ⟨none, ws.map ComponentValue.Ident ++ tl⟩ by
                  simp [parse_to_loop, Iter.next, hbt', hbb', hbl', hbr]]
                rw [ih fuel (some .Right) vt hsize']
                rw [specHorizontal_cons_pos hish,
                  specHorizontalWord_right hbl' hbr,
                  specVertical_cons_neg hisv]
                by_cases hv : specValidFrom (some .Right) vt ws
                · rw [if_pos hv,
                    if_pos ((specValidFrom_cons_horizontal .Right hisv
                      hish).mpr hv)]
                  rfl
                · rw [if_neg hv,
                    if_neg (fun hc =>
                      hv ((specValidFrom_cons_horizontal .Right hisv
                        hish).mp hc))]
              | some h0 =>
                rw [show parse_to_loop (fuel + 1) (some h0) vt
                    ⟨none, .Ident w :: (ws.map ComponentValue.Ident ++ tl)⟩ =
                    .error .fail by
                  simp [parse_to_loop, Iter.next, hbt', hbb', hbl', hbr]]
                rw [if_neg (specValidFrom_cons_horizontal_set hish)]
            · have hbt' : eq_ignore_ascii_case w "top" = false := by
                simpa using hbt
              have hbb' : eq_ignore_ascii_case w "bottom" = false := by
                simpa using hbb
              have hbl' : eq_ignore_ascii_case w "left" = false := by
                simpa using hbl
              have hbr' : eq_ignore_ascii_case w "right" = false := by
                simpa using hbr
              have hisv : isVerticalWord w = false := by
                rw [isVerticalWord_eq, hbt', hbb']
                rfl
              have hish : isHorizontalWord w = false := by
                rw [isHorizontalWord_eq, hbl', hbr']
                rfl
              rw [show parse_to_loop (fuel + 1) hz vt
                  ⟨none, .Ident w :: (ws.map ComponentValue.Ident ++ tl)⟩ =
                  .error .fail by
                simp [parse_to_loop, Iter.next, hbt', hbb', hbl', hbr']]
              rw [if_neg (specValidFrom_cons_unknown hisv hish)]

end specified

namespace specified

theorem filter_map_ident (ws : List String) :
    (ws.map ComponentValue.Ident).filter (fun x => !x.isWhiteSpace) =
      ws.map ComponentValue.Ident := by
  induction ws with
  | nil => rfl
  | cons w ws ih => simp [List.filter_cons, ComponentValue.isWhiteSpace, ih]

/-- The direction phase on `to` followed by direction words and a
terminator: the declarative validity / axis / resolution reading. -/
theorem parse_direction_to (t0 : String)
    (ht0 : eq_ignore_ascii_case t0 "to" = true)
    (ws : List String) (tl : List ComponentValue) (fin : Iter)
    (htl : ∀ (fuel : Nat) (hz : Option HorizontalDirection)
        (vt : Option VerticalDirection),
      (⟨none, tl⟩ : Iter).size < fuel →
      parse_to_loop fuel hz vt ⟨none, tl⟩ = .ok (hz, vt, fin))
    (hfilt : tl.filter (fun x => !x.isWhiteSpace) = tl) :
    parse_direction (Iter.ofTokens
        (.Ident t0 :: (ws.map ComponentValue.Ident ++ tl))) =
      (if specAxesValid ws then
        match specResolve (specHorizontal ws) (specVertical ws) with
        | some aoc => .ok (aoc, true, fin)
        | none => .error .fail
      else .error .fail) := by
  have hof : Iter.ofTokens (.Ident t0 :: (ws.map ComponentValue.Ident ++ tl)) =
      ⟨none, .Ident t0 :: (ws.map ComponentValue.Ident ++ tl)⟩ := by
    rw [Iter.ofTokens, List.filter_cons,
      if_pos (show (!(ComponentValue.Ident t0).isWhiteSpace) = true from rfl),
      List.filter_append, filter_map_ident, hfilt]
  rw [hof]
  rw [show parse_direction ⟨none, .Ident t0 :: (ws.map ComponentValue.Ident ++ tl)⟩ =
      (match parse_to_loop
          ((⟨none, ws.map ComponentValue.Ident ++ tl⟩ : Iter).size + 1)
          none none ⟨none, ws.map ComponentValue.Ident ++ tl⟩ with
        | .error e => .error e
        | .ok (horizontal, vertical, s2) =>
          match horizontal, vertical with
          | none, some .Top => .ok (.Angle ⟨⟨0, 0⟩⟩, true, s2)
          | some .Right, none => .ok (.Angle ⟨PiLin.scale 0.5 PI⟩, true, s2)
          | none, some .Bottom => .ok (.Angle ⟨PI⟩, true, s2)
          | some .Left, none => .ok (.Angle ⟨PiLin.scale 1.5 PI⟩, true, s2)
          | some h, some v => .ok (.Corner h v, true, s2)
          | none, none => .error .fail) by
    simp [parse_direction, Iter.next, ht0]]
  rw [parse_to_loop_spec tl fin htl ws _ none none (Nat.lt_succ_self _)]
  by_cases hv : specAxesValid ws
  · rw [if_pos (show specValidFrom none none ws from hv), if_pos hv]
    simp only [firstSet_none_left]
    rcases hh : specHorizontal ws with _ | h
    · rcases hvv : specVertical ws with _ | v
      · simp [specResolve]
      · cases v <;> simp [specResolve, PI]
    · rcases hvv : specVertical ws with _ | v
      · cases h
        · rw [show specResolve (some HorizontalDirection.Left) none =
              some (.Angle ⟨⟨0, 3 / 2⟩⟩) from rfl]
          have : (⟨PiLin.scale 1.5 PI⟩ : Angle) = ⟨⟨0, 3 / 2⟩⟩ := by
            simp [PiLin.scale, PI]
            norm_num
          simp [this]
        · rw [show specResolve (some HorizontalDirection.Right) none =
              some (.Angle ⟨⟨0, 1 / 2⟩⟩) from rfl]
          have : (⟨PiLin.scale 0.5 PI⟩ : Angle) = ⟨⟨0, 1 / 2⟩⟩ := by
            simp [PiLin.scale, PI]
            norm_num
          simp [this]
      · cases h <;> cases v <;> simp [specResolve]
  · rw [if_neg (show ¬ specValidFrom none none ws from hv), if_neg hv]

end specified

namespace specified

/-- C1: after a (case-insensitive) `to` identifier, the direction phase of
`LinearGradient::parse_function` reads identifiers until a Comma (pushed
back) or end-of-input; the outcome matches the declarative reading: every
word must name an axis (top/bottom/left/right, case-insensitively) with
each axis named at most once — otherwise the parse rejects — and the axes
resolve by the spec table (`specResolve`): only vertical=Top → Angle(0),
only horizontal=Right → Angle(π/2), only vertical=Bottom → Angle(π), only
horizontal=Left → Angle(3π/2), both axes → Corner(horizontal, vertical),
neither → rejection; in all successful cases the comma becomes mandatory. -/
theorem claim_C1 :
    ∀ (t0 : String) (ws : List String) (rest : List ComponentValue),
      eq_ignore_ascii_case t0 "to" = true →
      (parse_direction (Iter.ofTokens
          (.Ident t0 :: (ws.map ComponentValue.Ident ++ .Comma :: rest))) =
        (if specAxesValid ws then
          match specResolve (specHorizontal ws) (specVertical ws) with
          | some aoc => .ok (aoc, true,
              ⟨some .Comma, rest.filter (fun x => !x.isWhiteSpace)⟩)
          | none => .error .fail
        else .error .fail)) ∧
      (parse_direction (Iter.ofTokens
          (.Ident t0 :: ws.map ComponentValue.Ident)) =
        (if specAxesValid ws then
          match specResolve (specHorizontal ws) (specVertical ws) with
          | some aoc => .ok (aoc, true, ⟨none, []⟩)
          | none => .error .fail
        else .error .fail)) := by
  intro t0 ws rest ht0
  constructor
  · have hsame : Iter.ofTokens
        (.Ident t0 :: (ws.map ComponentValue.Ident ++ .Comma :: rest)) =
        Iter.ofTokens (.Ident t0 :: (ws.map ComponentValue.Ident ++
          .Comma :: rest.filter (fun x => !x.isWhiteSpace))) := by
      simp [Iter.ofTokens, List.filter_cons, List.filter_append,
        List.filter_filter]
    rw [hsame]
    exact parse_direction_to t0 ht0 ws
      (.Comma :: rest.filter (fun x => !x.isWhiteSpace))
      ⟨some .Comma, rest.filter (fun x => !x.isWhiteSpace)⟩
      (parse_to_loop_comma _)
      (by simp [List.filter_cons, List.filter_filter,
        ComponentValue.isWhiteSpace])
  · have hnil : (ComponentValue.Ident t0 :: ws.map ComponentValue.Ident) =
        .Ident t0 :: (ws.map ComponentValue.Ident ++ []) := by
      simp
    rw [hnil]
    exact parse_direction_to t0 ht0 ws [] ⟨none, []⟩ parse_to_loop_nil rfl

theorem claim_C1_witness :
    eq_ignore_ascii_case "to" "to" = true ∧
    parse_direction (Iter.ofTokens
        [.Ident "to", .Ident "top", .Ident "left", .Comma]) =
      .ok (.Corner .Left .Top, true, ⟨some .Comma, []⟩) := by
  refine ⟨by decide, ?_⟩
  have h := (claim_C1 "to" ["top", "left"] [] (by decide)).1
  rw [show (ComponentValue.Ident "to" ::
      ((["top", "left"] : List String).map ComponentValue.Ident ++
        ComponentValue.Comma :: ([] : List ComponentValue))) =
      [ComponentValue.Ident "to", .Ident "top", .Ident "left", .Comma]
    from rfl] at h
  rw [h]
  rfl

end specified
